import Mathlib

/-!
Verification development for the streaming Google TTS client
(`streamingtts.py`): shallow embedding of the text chunker, the SSML
builder, the streaming request builder and the synthesis driver, together
with theorems settling the specification claims.

Strings are modelled as `List Char`.  Python's `str.isalnum` /
`str.isspace` are modelled on the ASCII range (the inputs of interest in
the claims are ASCII apart from the Devanagari danda, which is neither
alphanumeric nor whitespace in Python, as in this model).
-/

/-- Model of Python `c.isspace()` restricted to the ASCII whitespace
characters (space, tab, newline, carriage return, vertical tab, form feed). -/
def pyIsSpace (c : Char) : Bool :=
  c = ' ' || c = '\t' || c = '\n' || c = '\r' || c = Char.ofNat 11 || c = Char.ofNat 12

/-- Model of Python `c.isalnum()` on the ASCII range. -/
def pyIsAlnum (c : Char) : Bool :=
  c.isAlpha || c.isDigit

/-- Source `streamingtts.py` line 618: a character belongs to a word iff it is
alphanumeric or an apostrophe U+0027. -/
def isWordChar (c : Char) : Bool :=
  pyIsAlnum c || c = Char.ofNat 39

/-- Source `streamingtts.py` line 574: `sentence_boundaries = ['.', '!', '?', '|', '\n']`.
Note the fourth entry is the ASCII vertical bar U+007C, not the Devanagari
danda U+0964. -/
def isSentenceBoundary (c : Char) : Bool :=
  c = '.' || c = '!' || c = '?' || c = '|' || c = '\n'

/-- Source `streamingtts.py` line 596: characters absorbed after a sentence
terminator: double quote U+0022, apostrophe U+0027, closing parenthesis,
closing square bracket, closing curly brace U+007D. -/
def isClosingPunct (c : Char) : Bool :=
  c = Char.ofNat 34 || c = Char.ofNat 39 || c = ')' || c = ']' || c = Char.ofNat 125

/-- Model of Python `s.isspace()` for strings: nonempty and all whitespace. -/
def pyStrIsSpace (s : List Char) : Bool :=
  !s.isEmpty && s.all pyIsSpace

/-- Source `streamingtts.py` line 571: `MAX_WORDS_PER_CHUNK = 3`. -/
def MAX_WORDS_PER_CHUNK : Nat := 3

/-- Source `streamingtts.py` lines 578-608: the sentence-splitting while loop of
`_chunk_text`, with the accumulated `current_sentence` as second argument.
A newline is handled first (always closes the sentence and is retained);
any other boundary character closes the sentence, absorbing one following
closing-punctuation character if present.  The final nonempty remainder is
flushed as a sentence. -/
def splitSentencesGo : List Char → List Char → List (List Char)
  | [], cur => if cur = [] then [] else [cur]
  | [c], cur =>
    if c = '\n' then
      [cur ++ [c]]
    else if isSentenceBoundary c then
      [cur ++ [c]]
    else
      splitSentencesGo [] (cur ++ [c])
  | c :: c2 :: rest2, cur =>
    if c = '\n' then
      (cur ++ [c]) :: splitSentencesGo (c2 :: rest2) []
    else if isSentenceBoundary c then
      if isClosingPunct c2 then
        (cur ++ [c, c2]) :: splitSentencesGo rest2 []
      else
        (cur ++ [c]) :: splitSentencesGo (c2 :: rest2) []
    else
      splitSentencesGo (c2 :: rest2) (cur ++ [c])

/-- The sentence-splitting pass of `_chunk_text` (lines 573-608). -/
def splitSentences (text : List Char) : List (List Char) :=
  splitSentencesGo text []

/-- Source `streamingtts.py` lines 614-629: tokenize a sentence into maximal runs
of word characters and single non-word characters, with the accumulated
`current_word` as second argument. -/
def tokenize : List Char → List Char → List (List Char)
  | [], curWord => if curWord = [] then [] else [curWord]
  | c :: rest, curWord =>
    if isWordChar c then
      tokenize rest (curWord ++ [c])
    else if curWord = [] then
      [c] :: tokenize rest []
    else
      curWord :: [c] :: tokenize rest []

/-- Source `streamingtts.py` line 640: `token.strip() and any(c.isalnum() for c in token)` —
a token counts as a real word iff it has a non-whitespace character and an
alphanumeric character. -/
def isRealWord (t : List Char) : Bool :=
  t.any (fun c => !pyIsSpace c) && t.any pyIsAlnum

/-- Source `streamingtts.py` lines 633-671: group a sentence's tokens into chunks
of `MAX_WORDS_PER_CHUNK` real words, each closed with a trailing space.
The second and third arguments are the accumulated `current_chunk` and
`word_count`.  When the chunk closes by consuming the following space
token (line 654), the recursion continues on `rest` still headed by that
space token, because the `i += 1` at line 658 does not advance the
`enumerate` iterator. -/
def groupTokens : List (List Char) → List (List Char) → Nat → List (List Char)
  | [], cur, _ =>
    if cur = [] then []
    else
      let fc := cur.flatten
      if fc.getLast? = some ' ' then [fc] else [fc ++ [' ']]
  | t :: rest, cur, wc =>
    let cur2 := cur ++ [t]
    let wc2 := if isRealWord t then wc + 1 else wc
    if wc2 = MAX_WORDS_PER_CHUNK then
      if pyStrIsSpace t then
        cur2.flatten :: groupTokens rest [] 0
      else
        match rest with
        | t2 :: _ =>
          if pyStrIsSpace t2 then
            (cur2 ++ [t2]).flatten :: groupTokens rest [] 0
          else
            (cur2.flatten ++ [' ']) :: groupTokens rest [] 0
        | [] => (cur2.flatten ++ [' ']) :: groupTokens rest [] 0
    else
      groupTokens rest cur2 wc2

/-- Source `streamingtts.py` lines 674-676: the final cleanup pass appending a
space to any chunk not already ending in one. -/
def ensureTrailingSpace (s : List Char) : List Char :=
  if s.getLast? = some ' ' then s else s ++ [' ']

/-- Chunking of a single sentence (lines 612-671). -/
def chunkSentence (s : List Char) : List (List Char) :=
  groupTokens (tokenize s []) [] 0

/-- Source `streamingtts.py` lines 561-679: the active `_chunk_text`. -/
def chunk_text (text : List Char) : List (List Char) :=
  (((splitSentences text).map chunkSentence).flatten).map ensureTrailingSpace

/-- Removing one trailing space from a chunk, as in the reconstruction
property of the specification ("after stripping exactly one guaranteed
trailing space from each"). -/
def stripOneTrailingSpace (s : List Char) : List Char :=
  if s.getLast? = some ' ' then s.dropLast else s

/-- Shorthand: the character list of a string literal. -/
def str (s : String) : List Char :=
  s.data

/-- Abstract language identifiers.  The type itself comes from the external
`pipecat` library (`pipecat.transcriptions.language.Language`); this model
lists every member referenced by the lookup table in
`language_to_google_tts_language` (lines 44-201) plus `HR` (Croatian), a
member of the external enum that is absent from the table.  (The name is
namespaced to avoid the unrelated `Language` of the mathematics library.) -/
inductive PipecatLanguage where
  | AF | AF_ZA | AR | BN | BN_IN | BG | BG_BG | CA | CA_ES
  | ZH | ZH_CN | ZH_TW | ZH_HK | CS | CS_CZ | DA | DA_DK
  | NL | NL_BE | NL_NL | EN | EN_US | EN_AU | EN_GB | EN_IN
  | ET | ET_EE | FIL | FIL_PH | FI | FI_FI | FR | FR_CA | FR_FR
  | GL | GL_ES | DE | DE_DE | EL | EL_GR | GU | GU_IN
  | HE | HE_IL | HI | HI_IN | HU | HU_HU | IS | IS_IS
  | ID | ID_ID | IT | IT_IT | JA | JA_JP | KN | KN_IN
  | KO | KO_KR | LV | LV_LV | LT | LT_LT | MS | MS_MY
  | ML | ML_IN | MR | MR_IN | NO | NB | NB_NO
  | PL | PL_PL | PT | PT_BR | PT_PT | PA | PA_IN
  | RO | RO_RO | RU | RU_RU | SR | SR_RS | SK | SK_SK
  | ES | ES_ES | ES_US | SV | SV_SE | TA | TA_IN
  | TE | TE_IN | TH | TH_TH | TR | TR_TR | UK | UK_UA
  | VI | VI_VN | HR
  deriving DecidableEq

/-- Source `streamingtts.py` lines 44-201: the static lookup table; the
dictionary `get` returns no value for members absent from the table. -/
def language_to_google_tts_language : PipecatLanguage → Option (List Char)
  | .AF => some (str "af-ZA")
  | .AF_ZA => some (str "af-ZA")
  | .AR => some (str "ar-XA")
  | .BN => some (str "bn-IN")
  | .BN_IN => some (str "bn-IN")
  | .BG => some (str "bg-BG")
  | .BG_BG => some (str "bg-BG")
  | .CA => some (str "ca-ES")
  | .CA_ES => some (str "ca-ES")
  | .ZH => some (str "cmn-CN")
  | .ZH_CN => some (str "cmn-CN")
  | .ZH_TW => some (str "cmn-TW")
  | .ZH_HK => some (str "yue-HK")
  | .CS => some (str "cs-CZ")
  | .CS_CZ => some (str "cs-CZ")
  | .DA => some (str "da-DK")
  | .DA_DK => some (str "da-DK")
  | .NL => some (str "nl-NL")
  | .NL_BE => some (str "nl-BE")
  | .NL_NL => some (str "nl-NL")
  | .EN => some (str "en-US")
  | .EN_US => some (str "en-US")
  | .EN_AU => some (str "en-AU")
  | .EN_GB => some (str "en-GB")
  | .EN_IN => some (str "en-IN")
  | .ET => some (str "et-EE")
  | .ET_EE => some (str "et-EE")
  | .FIL => some (str "fil-PH")
  | .FIL_PH => some (str "fil-PH")
  | .FI => some (str "fi-FI")
  | .FI_FI => some (str "fi-FI")
  | .FR => some (str "fr-FR")
  | .FR_CA => some (str "fr-CA")
  | .FR_FR => some (str "fr-FR")
  | .GL => some (str "gl-ES")
  | .GL_ES => some (str "gl-ES")
  | .DE => some (str "de-DE")
  | .DE_DE => some (str "de-DE")
  | .EL => some (str "el-GR")
  | .EL_GR => some (str "el-GR")
  | .GU => some (str "gu-IN")
  | .GU_IN => some (str "gu-IN")
  | .HE => some (str "he-IL")
  | .HE_IL => some (str "he-IL")
  | .HI => some (str "hi-IN")
  | .HI_IN => some (str "hi-IN")
  | .HU => some (str "hu-HU")
  | .HU_HU => some (str "hu-HU")
  | .IS => some (str "is-IS")
  | .IS_IS => some (str "is-IS")
  | .ID => some (str "id-ID")
  | .ID_ID => some (str "id-ID")
  | .IT => some (str "it-IT")
  | .IT_IT => some (str "it-IT")
  | .JA => some (str "ja-JP")
  | .JA_JP => some (str "ja-JP")
  | .KN => some (str "kn-IN")
  | .KN_IN => some (str "kn-IN")
  | .KO => some (str "ko-KR")
  | .KO_KR => some (str "ko-KR")
  | .LV => some (str "lv-LV")
  | .LV_LV => some (str "lv-LV")
  | .LT => some (str "lt-LT")
  | .LT_LT => some (str "lt-LT")
  | .MS => some (str "ms-MY")
  | .MS_MY => some (str "ms-MY")
  | .ML => some (str "ml-IN")
  | .ML_IN => some (str "ml-IN")
  | .MR => some (str "mr-IN")
  | .MR_IN => some (str "mr-IN")
  | .NO => some (str "nb-NO")
  | .NB => some (str "nb-NO")
  | .NB_NO => some (str "nb-NO")
  | .PL => some (str "pl-PL")
  | .PL_PL => some (str "pl-PL")
  | .PT => some (str "pt-PT")
  | .PT_BR => some (str "pt-BR")
  | .PT_PT => some (str "pt-PT")
  | .PA => some (str "pa-IN")
  | .PA_IN => some (str "pa-IN")
  | .RO => some (str "ro-RO")
  | .RO_RO => some (str "ro-RO")
  | .RU => some (str "ru-RU")
  | .RU_RU => some (str "ru-RU")
  | .SR => some (str "sr-RS")
  | .SR_RS => some (str "sr-RS")
  | .SK => some (str "sk-SK")
  | .SK_SK => some (str "sk-SK")
  | .ES => some (str "es-ES")
  | .ES_ES => some (str "es-ES")
  | .ES_US => some (str "es-US")
  | .SV => some (str "sv-SE")
  | .SV_SE => some (str "sv-SE")
  | .TA => some (str "ta-IN")
  | .TA_IN => some (str "ta-IN")
  | .TE => some (str "te-IN")
  | .TE_IN => some (str "te-IN")
  | .TH => some (str "th-TH")
  | .TH_TH => some (str "th-TH")
  | .TR => some (str "tr-TR")
  | .TR_TR => some (str "tr-TR")
  | .UK => some (str "uk-UA")
  | .UK_UA => some (str "uk-UA")
  | .VI => some (str "vi-VN")
  | .VI_VN => some (str "vi-VN")
  | .HR => none

/-- Source `streamingtts.py` lines 205-214: the `InputParams` pydantic model
(string-typed fields modelled as optional character lists; the default
language is `Language.EN`). -/
structure InputParams where
  pitch : Option (List Char) := none
  rate : Option (List Char) := none
  volume : Option (List Char) := none
  emphasis : Option (List Char) := none
  language : Option PipecatLanguage := some PipecatLanguage.EN
  gender : Option (List Char) := none
  google_style : Option (List Char) := none
  chunk_size : Nat := 100

/-- The `_settings` dictionary created in `GoogleTTSService.__init__`
(lines 228-239). -/
structure Settings where
  pitch : Option (List Char)
  rate : Option (List Char)
  volume : Option (List Char)
  emphasis : Option (List Char)
  language : Option (List Char)
  gender : Option (List Char)
  google_style : Option (List Char)
  chunk_size : Nat
  deriving DecidableEq

/-- Source `streamingtts.py` lines 228-239: the settings construction;
the "en-US" fallback applies only when no language was supplied at all,
otherwise the table lookup result is stored as is (possibly missing). -/
def initSettings (params : InputParams) : Settings :=
  { pitch := params.pitch
    rate := params.rate
    volume := params.volume
    emphasis := params.emphasis
    language :=
      match params.language with
      | some l => language_to_google_tts_language l
      | none => some (str "en-US")
    gender := params.gender
    google_style := params.google_style
    chunk_size := params.chunk_size }

/-- Python truthiness of an optional string: present and nonempty. -/
def pyTruthy : Option (List Char) → Bool
  | none => false
  | some s => !s.isEmpty

/-- Python `f-string` interpolation of an optional string: interpolating
the value `None` produces the text "None". -/
def pyStrOf : Option (List Char) → List Char
  | none => str "None"
  | some s => s

/-- A single apostrophe character, used as the attribute quote in the SSML. -/
def quoteChar : List Char :=
  [Char.ofNat 39]

/-- Source `streamingtts.py` lines 277-321: `_construct_ssml`.  The voice tag
always carries name and language attributes (the language interpolated with
Python `str`, so a missing language renders as "None"); prosody, emphasis
and style wrappers appear only when the corresponding setting is truthy,
and close in reverse order. -/
def _construct_ssml (voice_id : List Char) (st : Settings) (text : List Char) : List Char :=
  let voice_attrs :=
    [str "name=" ++ quoteChar ++ voice_id ++ quoteChar,
     str "language=" ++ quoteChar ++ pyStrOf st.language ++ quoteChar]
    ++ (if pyTruthy st.gender then [str "gender=" ++ quoteChar ++ pyStrOf st.gender ++ quoteChar] else [])
  let prosody_attrs :=
    (if pyTruthy st.pitch then [str "pitch=" ++ quoteChar ++ pyStrOf st.pitch ++ quoteChar] else [])
    ++ (if pyTruthy st.rate then [str "rate=" ++ quoteChar ++ pyStrOf st.rate ++ quoteChar] else [])
    ++ (if pyTruthy st.volume then [str "volume=" ++ quoteChar ++ pyStrOf st.volume ++ quoteChar] else [])
  str "<speak>"
  ++ str "<voice " ++ (str " ").intercalate voice_attrs ++ str ">"
  ++ (if !prosody_attrs.isEmpty then
        str "<prosody " ++ (str " ").intercalate prosody_attrs ++ str ">"
      else [])
  ++ (if pyTruthy st.emphasis then
        str "<emphasis level=" ++ quoteChar ++ pyStrOf st.emphasis ++ quoteChar ++ str ">"
      else [])
  ++ (if pyTruthy st.google_style then
        str "<google:style name=" ++ quoteChar ++ pyStrOf st.google_style ++ quoteChar ++ str ">"
      else [])
  ++ text
  ++ (if pyTruthy st.google_style then str "</google:style>" else [])
  ++ (if pyTruthy st.emphasis then str "</emphasis>" else [])
  ++ (if !prosody_attrs.isEmpty then str "</prosody>" else [])
  ++ str "</voice></speak>"

/-- Decidable substring test: `containsSub pat l` holds iff `pat` occurs as
a contiguous infix of `l` (model of Python `pat in l`). -/
def containsSub (pat l : List Char) : Bool :=
  decide (pat <:+: l)

/-- The synthesis requests produced by the streaming request generator:
one configuration request (voice language code and name), then one input
request per chunk, markup-wrapped or plain. -/
inductive SynthRequest where
  | config (language_code : Option (List Char)) (name : List Char)
  | ssmlInput (ssml : List Char)
  | textInput (text : List Char)
  deriving DecidableEq

/-- Source `streamingtts.py` lines 683-725: `_create_streaming_request_generator`,
as the finite list of requests the returned generator yields.  A voice whose
lowercased identifier contains "chirp" or "journey" receives plain-text
inputs; every other voice receives SSML-wrapped inputs. -/
def _create_streaming_requests (st : Settings) (voice_id : List Char) (text : List Char) :
    List SynthRequest :=
  let is_chirp_voice := containsSub (str "chirp") (voice_id.map Char.toLower)
  let is_journey_voice := containsSub (str "journey") (voice_id.map Char.toLower)
  let use_ssml := !(is_chirp_voice || is_journey_voice)
  SynthRequest.config st.language voice_id ::
  (chunk_text text).map (fun ch =>
    if use_ssml then
      SynthRequest.ssmlInput (_construct_ssml voice_id st ch)
    else
      SynthRequest.textInput ch)

/-- The frames `run_tts` yields (audio bytes modelled as natural numbers). -/
inductive TTSFrame where
  | started
  | audio (data : List Nat) (sample_rate : Nat) (channels : Nat)
  | stopped
  | error (msg : List Char)
  deriving DecidableEq

/-- Observable events of one `run_tts` call: yielded frames plus the
stop of the time-to-first-byte timer. -/
inductive TTSEvent where
  | stopTTFB
  | frame (f : TTSFrame)
  deriving DecidableEq

/-- Source `streamingtts.py` line 760: `CHUNK_SIZE = 1024`. -/
def CHUNK_SIZE : Nat := 1024

/-- Source `streamingtts.py` lines 759-768: split one response's audio
content into consecutive 1024-byte audio frames (the final one may be
shorter; an empty payload yields no frames). -/
def audioFrames (sample_rate : Nat) (content : List Nat) : List TTSFrame :=
  (List.range' 0 ((content.length + CHUNK_SIZE - 1) / CHUNK_SIZE) CHUNK_SIZE).map
    (fun i => TTSFrame.audio ((content.drop i).take CHUNK_SIZE) sample_rate 1)

/-- Source `streamingtts.py` lines 748-768: the response loop, with the
`ttfb_sent` flag threaded through; the time-to-first-byte timer is stopped
on the first response only. -/
def responseEvents (sample_rate : Nat) : List (List Nat) → Bool → List TTSEvent
  | [], _ => []
  | r :: rs, ttfb_sent =>
    (if ttfb_sent then [] else [TTSEvent.stopTTFB])
    ++ (audioFrames sample_rate r).map TTSEvent.frame
    ++ responseEvents sample_rate rs true

/-- Source `streamingtts.py` lines 727-775: the observable event sequence of
one `run_tts` call.  `responses` is the prefix of the remote response
sequence processed before the call either finishes normally
(`failure = none`, stop frame emitted) or an exception with message
`failure = some msg` reaches the `except` clause, which yields a single
error frame and no stop frame; no exception escapes the call. -/
def run_tts_events (sample_rate : Nat) (responses : List (List Nat))
    (failure : Option (List Char)) : List TTSEvent :=
  TTSEvent.frame TTSFrame.started
    :: responseEvents sample_rate responses false
    ++ (match failure with
        | none => [TTSEvent.frame TTSFrame.stopped]
        | some msg =>
          [TTSEvent.frame (TTSFrame.error (str "Streaming TTS generation error: " ++ msg))])

/-- Well-formedness of a token: nonempty, and either a pure word-character
run or a single non-word character. -/
def GoodToken (t : List Char) : Prop :=
  t ≠ [] ∧ (t.all isWordChar = true ∨ ∃ c, t = [c] ∧ isWordChar c = false)

/-- Chain of no-adjacent-word-runs, the shape produced by the tokenizer. -/
def NoAdjWords : List (List Char) → Prop :=
  List.Chain' (fun a b : List Char => a.all isWordChar = false ∨ b.all isWordChar = false)

/-- Event classifiers for the synthesis driver's output. -/
def isErrorEvent : TTSEvent → Bool
  | TTSEvent.frame (TTSFrame.error _) => true
  | _ => false

def isStopEvent : TTSEvent → Bool
  | TTSEvent.frame TTSFrame.stopped => true
  | _ => false

def isAudioEvent : TTSEvent → Bool
  | TTSEvent.frame (TTSFrame.audio _ _ _) => true
  | _ => false

def isConfigRequest : SynthRequest → Bool
  | SynthRequest.config _ _ => true
  | _ => false

/-! ### Lemmas about the sentence-splitting pass -/

/-- Concatenating the sentences produced from `t` with accumulator `cur`
recovers `cur ++ t`. -/
theorem splitSentencesGo_flatten (t cur : List Char) :
    (splitSentencesGo t cur).flatten = cur ++ t := by
  induction t, cur using splitSentencesGo.induct with
  | case1 => simp [splitSentencesGo]
  | case2 cur h => simp [splitSentencesGo, h]
  | case3 cur => simp [splitSentencesGo]
  | case4 c cur h1 h2 => rw [splitSentencesGo.eq_def]; simp [h1, h2]
  | case5 c cur h1 h2 ih => rw [splitSentencesGo.eq_def]; simp_all
  | case6 c2 rest2 cur ih => rw [splitSentencesGo.eq_def]; simp_all
  | case7 c c2 rest2 cur h1 h2 h3 ih => rw [splitSentencesGo.eq_def]; simp_all
  | case8 c c2 rest2 cur h1 h2 h3 ih => rw [splitSentencesGo.eq_def]; simp_all
  | case9 c c2 rest2 cur h1 h2 ih => rw [splitSentencesGo.eq_def]; simp_all

/-- Concatenating all sentences recovers the input text. -/
theorem splitSentences_flatten (text : List Char) :
    (splitSentences text).flatten = text :=
  splitSentencesGo_flatten text []

/-- Every produced sentence is nonempty. -/
theorem splitSentencesGo_ne_nil (t cur : List Char) :
    ∀ s ∈ splitSentencesGo t cur, s ≠ [] := by
  induction t, cur using splitSentencesGo.induct with
  | case1 => simp [splitSentencesGo]
  | case2 cur h => simp [splitSentencesGo, h]
  | case3 cur => simp [splitSentencesGo]
  | case4 c cur h1 h2 => rw [splitSentencesGo.eq_def]; simp [h1, h2]
  | case5 c cur h1 h2 ih => rw [splitSentencesGo.eq_def]; simp_all
  | case6 c2 rest2 cur ih => rw [splitSentencesGo.eq_def]; simp_all
  | case7 c c2 rest2 cur h1 h2 h3 ih => rw [splitSentencesGo.eq_def]; simp_all
  | case8 c c2 rest2 cur h1 h2 h3 ih => rw [splitSentencesGo.eq_def]; simp_all
  | case9 c c2 rest2 cur h1 h2 ih => rw [splitSentencesGo.eq_def]; simp_all

/-- A produced sentence ending in a space can only be the trailing
remainder: then the whole remaining input `cur ++ t` ends in a space. -/
theorem splitSentencesGo_getLast (t cur : List Char) :
    ∀ s ∈ splitSentencesGo t cur, s.getLast? = some ' ' →
      (cur ++ t).getLast? = some ' ' := by
  induction t, cur using splitSentencesGo.induct with
  | case1 => simp [splitSentencesGo]
  | case2 cur h =>
    intro s hs hlast
    rw [splitSentencesGo.eq_def] at hs
    simp [h] at hs
    subst hs
    simpa using hlast
  | case3 cur =>
    intro s hs hlast
    rw [splitSentencesGo.eq_def] at hs
    simp at hs
    subst hs
    rw [List.getLast?_concat] at hlast
    exact absurd hlast (by decide)
  | case4 c cur h1 h2 =>
    intro s hs hlast
    rw [splitSentencesGo.eq_def] at hs
    simp [h1, h2] at hs
    subst hs
    rw [List.getLast?_concat] at hlast
    have hc : c = ' ' := by injection hlast
    rw [hc] at h2
    exact absurd h2 (by decide)
  | case5 c cur h1 h2 ih =>
    intro s hs hlast
    rw [splitSentencesGo.eq_def] at hs
    simp only [h1, h2, if_neg, Bool.false_eq_true, if_false] at hs
    have h4 := ih s hs hlast
    simpa using h4
  | case6 c2 rest2 cur ih =>
    intro s hs hlast
    rw [splitSentencesGo.eq_def] at hs
    simp at hs
    rcases hs with rfl | hmem
    · rw [List.getLast?_concat] at hlast
      exact absurd hlast (by decide)
    · have h4 := ih s hmem hlast
      simp only [List.nil_append] at h4
      have hre : cur ++ '\n' :: c2 :: rest2 = (cur ++ ['\n']) ++ (c2 :: rest2) := by simp
      rw [hre, List.getLast?_append_of_ne_nil _ (by simp), h4]
  | case7 c c2 rest2 cur h1 h2 h3 ih =>
    intro s hs hlast
    rw [splitSentencesGo.eq_def] at hs
    simp [h1, h2, h3] at hs
    rcases hs with rfl | hmem
    · have hsh : cur ++ [c, c2] = (cur ++ [c]) ++ [c2] := by simp
      rw [hsh, List.getLast?_concat] at hlast
      have hc2 : c2 = ' ' := by injection hlast
      rw [hc2] at h3
      exact absurd h3 (by decide)
    · by_cases hr : rest2 = []
      · subst hr
        simp [splitSentencesGo] at hmem
      · have h4 := ih s hmem hlast
        simp only [List.nil_append] at h4
        have hre : cur ++ c :: c2 :: rest2 = (cur ++ [c, c2]) ++ rest2 := by simp
        rw [hre, List.getLast?_append_of_ne_nil _ hr, h4]
  | case8 c c2 rest2 cur h1 h2 h3 ih =>
    intro s hs hlast
    rw [splitSentencesGo.eq_def] at hs
    simp [h1, h2, h3] at hs
    rcases hs with rfl | hmem
    · rw [List.getLast?_concat] at hlast
      have hc : c = ' ' := by injection hlast
      rw [hc] at h2
      exact absurd h2 (by decide)
    · have h4 := ih s hmem hlast
      simp only [List.nil_append] at h4
      have hre : cur ++ c :: c2 :: rest2 = (cur ++ [c]) ++ (c2 :: rest2) := by simp
      rw [hre, List.getLast?_append_of_ne_nil _ (by simp), h4]
  | case9 c c2 rest2 cur h1 h2 ih =>
    intro s hs hlast
    rw [splitSentencesGo.eq_def] at hs
    simp only [h1, h2, if_neg, Bool.false_eq_true, if_false] at hs
    have h4 := ih s hs hlast
    simpa using h4

/-! ### Lemmas about the tokenizer -/

/-- Concatenating the tokens of `s` (with pending word `acc`) recovers
`acc ++ s`. -/
theorem tokenize_flatten (s : List Char) :
    ∀ acc, (tokenize s acc).flatten = acc ++ s := by
  induction s with
  | nil =>
    intro acc
    by_cases h : acc = [] <;> simp [tokenize, h]
  | cons c rest ih =>
    intro acc
    by_cases h : isWordChar c = true
    · simp [tokenize, h, ih]
    · by_cases h2 : acc = [] <;> simp [tokenize, h, h2, ih]

/-- Every token produced by the tokenizer is well formed. -/
theorem tokenize_good (s : List Char) :
    ∀ acc, acc.all isWordChar = true → ∀ t ∈ tokenize s acc, GoodToken t := by
  induction s with
  | nil =>
    intro acc hacc t ht
    by_cases h : acc = []
    · simp [tokenize, h] at ht
    · simp [tokenize, h] at ht
      subst ht
      exact ⟨h, Or.inl hacc⟩
  | cons c rest ih =>
    intro acc hacc t ht
    by_cases h : isWordChar c = true
    · simp only [tokenize, h, if_pos] at ht
      exact ih (acc ++ [c]) (by simp [hacc, h]) t ht
    · by_cases h2 : acc = []
      · simp [tokenize, h, h2] at ht
        rcases ht with rfl | ht
        · exact ⟨by simp, Or.inr ⟨c, rfl, by simpa using h⟩⟩
        · exact ih [] (by simp) t ht
      · simp [tokenize, h, h2] at ht
        rcases ht with rfl | rfl | ht
        · exact ⟨h2, Or.inl hacc⟩
        · exact ⟨by simp, Or.inr ⟨c, rfl, by simpa using h⟩⟩
        · exact ih [] (by simp) t ht

/-- Adjacent tokens are never both word runs: the tokenizer flushes a word
only at a non-word character or at the end. -/
theorem tokenize_chain (s : List Char) :
    ∀ acc, List.Chain'
      (fun a b : List Char => a.all isWordChar = false ∨ b.all isWordChar = false)
      (tokenize s acc) := by
  induction s with
  | nil =>
    intro acc
    by_cases h : acc = [] <;> simp [tokenize, h]
  | cons c rest ih =>
    intro acc
    by_cases h : isWordChar c = true
    · simpa [tokenize, h] using ih (acc ++ [c])
    · by_cases h2 : acc = []
      · have he : tokenize (c :: rest) acc = [c] :: tokenize rest [] := by
          simp [tokenize, h, h2]
        rw [he, List.chain'_cons']
        exact ⟨fun y _ => Or.inl (by simpa using h), ih []⟩
      · have he : tokenize (c :: rest) acc = acc :: [c] :: tokenize rest [] := by
          simp [tokenize, h, h2]
        rw [he, List.chain'_cons', List.chain'_cons']
        refine ⟨fun y hy => ?_, fun y _ => Or.inl (by simpa using h), ih []⟩
        simp only [List.head?_cons, Option.mem_def, Option.some.injEq] at hy
        subst hy
        exact Or.inr (by simpa using h)

/-- Tokenizing a pure word-character run prefix accumulates it. -/
theorem tokenize_word_prefix (w : List Char) :
    ∀ l acc, w.all isWordChar = true → tokenize (w ++ l) acc = tokenize l (acc ++ w) := by
  induction w with
  | nil =>
    intro l acc _
    simp
  | cons c wrest ih =>
    intro l acc hw
    simp only [List.all_cons, Bool.and_eq_true] at hw
    have he : tokenize ((c :: wrest) ++ l) acc = tokenize (wrest ++ l) (acc ++ [c]) := by
      simp [tokenize, hw.1]
    rw [he, ih l (acc ++ [c]) hw.2]
    simp

/-- Appending a single non-word character appends a singleton token. -/
theorem tokenize_append_nonword (c : Char) (hc : isWordChar c = false) (l : List Char) :
    ∀ acc, tokenize (l ++ [c]) acc = tokenize l acc ++ [[c]] := by
  induction l with
  | nil =>
    intro acc
    by_cases h2 : acc = [] <;> simp [tokenize, h2, hc]
  | cons d rest ih =>
    intro acc
    by_cases hd : isWordChar d = true
    · simp [tokenize, hd, ih]
    · by_cases h2 : acc = [] <;> simp [tokenize, hd, h2, ih]

/-- Retokenization: tokenizing the concatenation of a well-formed token
list (no two adjacent word runs) recovers the list itself. -/
theorem tokenize_of_good (L : List (List Char)) :
    (∀ t ∈ L, GoodToken t) →
    List.Chain' (fun a b : List Char => a.all isWordChar = false ∨ b.all isWordChar = false) L →
    tokenize L.flatten [] = L := by
  induction L with
  | nil =>
    intro _ _
    simp [tokenize]
  | cons t rest ih =>
    intro hg hch
    have hrec : tokenize rest.flatten [] = rest :=
      ih (fun x hx => hg x (by simp [hx])) (List.chain'_cons'.mp hch).2
    rcases hg t (by simp) with ⟨hne, hall | ⟨c, rfl, hc⟩⟩
    · rw [List.flatten_cons, tokenize_word_prefix t _ [] hall, List.nil_append]
      cases rest with
      | nil =>
        simp [tokenize, hne]
      | cons u rest2 =>
        have hru : u.all isWordChar = false := by
          rcases (List.chain'_cons'.mp hch).1 u (by simp) with h | h
          · rw [hall] at h
            exact absurd h (by simp)
          · exact h
        rcases hg u (by simp) with ⟨_, hallu | ⟨d, rfl, hd⟩⟩
        · rw [hallu] at hru
          exact absurd hru (by simp)
        · have hstep : tokenize (([d] :: rest2).flatten) [] =
              [d] :: tokenize rest2.flatten [] := by
            simp [tokenize, hd]
          rw [hrec] at hstep
          have hrest2 : tokenize rest2.flatten [] = rest2 := by
            injection hstep with h1 h2
            exact h2.symm
          simp [tokenize, hd, hne, hrest2]
    · have hstep : tokenize (c :: rest.flatten) [] = [c] :: tokenize rest.flatten [] := by
        simp [tokenize, hc]
      simp [List.flatten_cons, hstep, hrec]

/-! ### Character-class bridge lemmas -/

/-- Enumerate the model whitespace characters. -/
theorem pyIsSpace_elim (c : Char) (h : pyIsSpace c = true) :
    c = ' ' ∨ c = '\t' ∨ c = '\n' ∨ c = '\r' ∨ c = Char.ofNat 11 ∨ c = Char.ofNat 12 := by
  have h2 := h
  simp only [pyIsSpace, Bool.or_eq_true, decide_eq_true_eq] at h2
  tauto

/-- An alphanumeric character is not whitespace. -/
theorem alnum_not_space (c : Char) (h : pyIsAlnum c = true) : pyIsSpace c = false := by
  by_contra hx
  rw [Bool.not_eq_false] at hx
  rcases pyIsSpace_elim c hx with rfl | rfl | rfl | rfl | rfl | rfl <;>
    exact absurd h (by decide)

/-- A whitespace character is not a word character. -/
theorem space_not_wordChar (c : Char) (h : pyIsSpace c = true) : isWordChar c = false := by
  rcases pyIsSpace_elim c h with rfl | rfl | rfl | rfl | rfl | rfl <;> decide

/-- A token counted as a real word is not a whitespace string. -/
theorem isRealWord_not_spaceStr (t : List Char) (h : isRealWord t = true) :
    pyStrIsSpace t = false := by
  simp only [isRealWord, Bool.and_eq_true, List.any_eq_true] at h
  obtain ⟨-, a, ha, hal⟩ := h
  have hs : pyIsSpace a = false := alnum_not_space a hal
  by_contra hx
  rw [Bool.not_eq_false] at hx
  simp only [pyStrIsSpace, Bool.and_eq_true, List.all_eq_true] at hx
  rw [hx.2 a ha] at hs
  exact absurd hs (by simp)

/-- A nonempty pure word-character run is not a whitespace string. -/
theorem wordTok_not_spaceStr (t : List Char) (hne : t ≠ [])
    (hall : t.all isWordChar = true) : pyStrIsSpace t = false := by
  by_contra hx
  rw [Bool.not_eq_false] at hx
  simp only [pyStrIsSpace, Bool.and_eq_true, List.all_eq_true] at hx
  obtain ⟨c, hc⟩ := List.exists_mem_of_ne_nil t hne
  have h1 := List.all_eq_true.mp hall c hc
  rw [space_not_wordChar c (hx.2 c hc)] at h1
  exact absurd h1 (by simp)

/-! ### Branch equations for the chunk-grouping loop -/

/-- Grouping with empty leftovers produces nothing. -/
theorem groupTokens_nil_nil (wc : Nat) : groupTokens [] [] wc = [] := by
  simp [groupTokens]

/-- Final flush when the leftover chunk already ends in a space. -/
theorem groupTokens_nil_space (cur : List (List Char)) (wc : Nat) (h : cur ≠ [])
    (h2 : cur.flatten.getLast? = some ' ') :
    groupTokens [] cur wc = [cur.flatten] := by
  simp [groupTokens, h, h2]

/-- Final flush when the leftover chunk does not end in a space: a space
is appended. -/
theorem groupTokens_nil_nospace (cur : List (List Char)) (wc : Nat) (h : cur ≠ [])
    (h2 : cur.flatten.getLast? ≠ some ' ') :
    groupTokens [] cur wc = [cur.flatten ++ [' ']] := by
  simp [groupTokens, h, h2]

/-- Accumulating step: the word bound is not yet reached. -/
theorem groupTokens_cons_continue (t : List Char) (rest cur : List (List Char)) (wc : Nat)
    (h : (if isRealWord t = true then wc + 1 else wc) ≠ MAX_WORDS_PER_CHUNK) :
    groupTokens (t :: rest) cur wc
      = groupTokens rest (cur ++ [t]) (if isRealWord t = true then wc + 1 else wc) := by
  by_cases hr : isRealWord t = true <;> simp_all [groupTokens]

/-- Closing step consuming the following whitespace token: the chunk ends
with that token, and the recursion continues on the token list still
headed by the same token (the ineffective `i += 1` of line 658). -/
theorem groupTokens_cons_close_nextspace (t t2 : List Char) (rest2 cur : List (List Char))
    (wc : Nat) (hmax : (if isRealWord t = true then wc + 1 else wc) = MAX_WORDS_PER_CHUNK)
    (hns : pyStrIsSpace t = false) (hs2 : pyStrIsSpace t2 = true) :
    groupTokens (t :: t2 :: rest2) cur wc
      = (cur ++ [t] ++ [t2]).flatten :: groupTokens (t2 :: rest2) [] 0 := by
  by_cases hr : isRealWord t = true <;> simp_all [groupTokens]

/-- Closing step synthesizing a space: the following token exists but is
not whitespace. -/
theorem groupTokens_cons_close_synth (t t2 : List Char) (rest2 cur : List (List Char))
    (wc : Nat) (hmax : (if isRealWord t = true then wc + 1 else wc) = MAX_WORDS_PER_CHUNK)
    (hns : pyStrIsSpace t = false) (hs2 : pyStrIsSpace t2 = false) :
    groupTokens (t :: t2 :: rest2) cur wc
      = ((cur ++ [t]).flatten ++ [' ']) :: groupTokens (t2 :: rest2) [] 0 := by
  by_cases hr : isRealWord t = true <;> simp_all [groupTokens]

/-- Closing step at the last token: a space is synthesized. -/
theorem groupTokens_cons_close_last (t : List Char) (cur : List (List Char)) (wc : Nat)
    (hmax : (if isRealWord t = true then wc + 1 else wc) = MAX_WORDS_PER_CHUNK)
    (hns : pyStrIsSpace t = false) :
    groupTokens [t] cur wc = [(cur ++ [t]).flatten ++ [' ']] := by
  by_cases hr : isRealWord t = true <;> simp_all [groupTokens]

/-- Stripping one trailing space undoes appending one. -/
theorem strip_concat (X : List Char) : stripOneTrailingSpace (X ++ [' ']) = X := by
  simp [stripOneTrailingSpace]

/-- The trailing-space normalization pass is invisible to stripping. -/
theorem strip_ensure (s : List Char) :
    stripOneTrailingSpace (ensureTrailingSpace s) = stripOneTrailingSpace s := by
  by_cases h : s.getLast? = some ' '
  · simp [ensureTrailingSpace, h]
  · rw [ensureTrailingSpace, if_neg h, strip_concat, stripOneTrailingSpace, if_neg h]

/-- Main reconstruction invariant of the grouping loop: provided every
whitespace token is a single plain space and the pending material does not
end in a space, stripping one trailing space from each produced chunk and
concatenating recovers the pending chunk followed by the remaining
tokens. -/
theorem groupTokens_strip_flatten (ts : List (List Char)) :
    ∀ (cur : List (List Char)) (wc : Nat),
      (∀ t ∈ ts, t ≠ []) →
      (∀ t ∈ ts, pyStrIsSpace t = true → t = [' ']) →
      wc < MAX_WORDS_PER_CHUNK →
      (cur.flatten ++ ts.flatten).getLast? ≠ some ' ' →
      ((groupTokens ts cur wc).map stripOneTrailingSpace).flatten
        = cur.flatten ++ ts.flatten := by
  induction ts with
  | nil =>
    intro cur wc _ _ _ h4
    by_cases hc : cur = []
    · subst hc
      simp [groupTokens_nil_nil]
    · rw [groupTokens_nil_nospace cur wc hc (by simpa using h4)]
      simp [strip_concat]
  | cons t rest ih =>
    intro cur wc h1 h2 h3 h4
    by_cases hmax : (if isRealWord t = true then wc + 1 else wc) = MAX_WORDS_PER_CHUNK
    · have hreal : isRealWord t = true := by
        by_contra hr
        rw [if_neg hr] at hmax
        omega
      have hns : pyStrIsSpace t = false := isRealWord_not_spaceStr t hreal
      cases rest with
      | nil =>
        rw [groupTokens_cons_close_last t cur wc hmax hns]
        simp only [List.map_cons, List.map_nil, strip_concat]
        simp
      | cons t2 rest2 =>
        have hne2 : t2 ≠ [] := h1 t2 (by simp)
        have hfne : (t2 :: rest2).flatten ≠ [] := by
          simp only [List.flatten_cons]
          intro hx
          exact hne2 (List.append_eq_nil.mp hx).1
        have hshape : cur.flatten ++ (t :: t2 :: rest2).flatten
            = (cur.flatten ++ t) ++ (t2 :: rest2).flatten := by
          simp
        have h4' : (([] : List (List Char)).flatten ++ (t2 :: rest2).flatten).getLast?
            ≠ some ' ' := by
          simp only [List.flatten_nil, List.nil_append]
          intro hx
          apply h4
          rw [hshape, List.getLast?_append_of_ne_nil _ hfne]
          exact hx
        have hrec := ih [] 0 (fun x hx => h1 x (by simp [hx]))
            (fun x hx h => h2 x (by simp [hx]) h) (by simp [MAX_WORDS_PER_CHUNK]) h4'
        rcases Bool.eq_false_or_eq_true (pyStrIsSpace t2) with hs2 | hs2
        · have ht2 : t2 = [' '] := h2 t2 (by simp) hs2
          rw [groupTokens_cons_close_nextspace t t2 rest2 cur wc hmax hns hs2,
              List.map_cons, List.flatten_cons, hrec]
          have hchunk : (cur ++ [t] ++ [t2]).flatten = (cur ++ [t]).flatten ++ t2 := by
            simp
          rw [hchunk, ht2, strip_concat]
          simp
        · rw [groupTokens_cons_close_synth t t2 rest2 cur wc hmax hns hs2,
              List.map_cons, List.flatten_cons, hrec, strip_concat]
          simp
    · rw [groupTokens_cons_continue t rest cur wc hmax]
      have hwc2 : (if isRealWord t = true then wc + 1 else wc) < MAX_WORDS_PER_CHUNK := by
        by_cases hr : isRealWord t = true
        · rw [if_pos hr] at hmax ⊢
          omega
        · rw [if_neg hr] at hmax ⊢
          omega
      have h4p : ((cur ++ [t]).flatten ++ rest.flatten).getLast? ≠ some ' ' := by
        intro hx
        apply h4
        simpa using hx
      have hr := ih (cur ++ [t]) _ (fun x hx => h1 x (by simp [hx]))
        (fun x hx h => h2 x (by simp [hx]) h) hwc2 h4p
      rw [hr]
      simp

/-- Sentence-level reconstruction: if every whitespace character of the
sentence is a plain space and the sentence does not end in a space, the
chunks of the sentence reconstruct it after stripping. -/
theorem chunkSentence_strip (s : List Char)
    (hws : ∀ c ∈ s, pyIsSpace c = true → c = ' ')
    (hlast : s.getLast? ≠ some ' ') :
    ((chunkSentence s).map stripOneTrailingSpace).flatten = s := by
  have hmem : ∀ t ∈ tokenize s [], ∀ c ∈ t, c ∈ s := by
    intro t ht c hc
    have : c ∈ (tokenize s []).flatten := List.mem_flatten.mpr ⟨t, ht, hc⟩
    rwa [tokenize_flatten s [], List.nil_append] at this
  have h1 : ∀ t ∈ tokenize s [], t ≠ [] := by
    intro t ht
    exact (tokenize_good s [] (by simp) t ht).1
  have h2 : ∀ t ∈ tokenize s [], pyStrIsSpace t = true → t = [' '] := by
    intro t ht hsp
    rcases tokenize_good s [] (by simp) t ht with ⟨hne, hall | ⟨c, rfl, -⟩⟩
    · rw [wordTok_not_spaceStr t hne hall] at hsp
      exact absurd hsp (by simp)
    · have hc : pyIsSpace c = true := by
        simpa [pyStrIsSpace] using hsp
      rw [hws c (hmem _ ht c (by simp)) hc]
  have h4 : (([] : List (List Char)).flatten ++ (tokenize s []).flatten).getLast?
      ≠ some ' ' := by
    rw [List.flatten_nil, List.nil_append, tokenize_flatten s [], List.nil_append]
    exact hlast
  have := groupTokens_strip_flatten (tokenize s []) [] 0 h1 h2
    (by simp [MAX_WORDS_PER_CHUNK]) h4
  rw [chunkSentence, this, List.flatten_nil, List.nil_append,
    tokenize_flatten s [], List.nil_append]

/-- Reconstruction over a list of sentences. -/
theorem sentences_strip (sl : List (List Char))
    (h : ∀ s ∈ sl, ((chunkSentence s).map stripOneTrailingSpace).flatten = s) :
    (((sl.map chunkSentence).flatten).map stripOneTrailingSpace).flatten = sl.flatten := by
  induction sl with
  | nil => simp
  | cons s rest ih =>
    simp only [List.map_cons, List.flatten_cons, List.map_append, List.flatten_append]
    rw [h s (by simp), ih (fun x hx => h x (by simp [hx]))]

/-- Full reconstruction: the post-pass normalization is invisible to
stripping, and each sentence reconstructs. -/
theorem chunk_text_strip_aux (text : List Char)
    (hws : ∀ c ∈ text, pyIsSpace c = true → c = ' ')
    (hlast : text.getLast? ≠ some ' ') :
    ((chunk_text text).map stripOneTrailingSpace).flatten = text := by
  have hmap : (chunk_text text).map stripOneTrailingSpace
      = (((splitSentences text).map chunkSentence).flatten).map stripOneTrailingSpace := by
    rw [chunk_text, List.map_map]
    exact List.map_congr_left (fun a _ => strip_ensure a)
  rw [hmap]
  have hsen : ∀ s ∈ splitSentences text,
      ((chunkSentence s).map stripOneTrailingSpace).flatten = s := by
    intro s hs
    apply chunkSentence_strip
    · intro c hc hspc
      apply hws c _ hspc
      have : c ∈ (splitSentences text).flatten := List.mem_flatten.mpr ⟨s, hs, hc⟩
      rwa [splitSentences_flatten] at this
    · intro hx
      exact hlast (by simpa using splitSentencesGo_getLast text [] s hs hx)
  rw [sentences_strip _ hsen, splitSentences_flatten]

/-- A whitespace token is not counted as a real word. -/
theorem spaceStr_not_real (t : List Char) (h : pyStrIsSpace t = true) :
    isRealWord t = false := by
  simp only [pyStrIsSpace, Bool.and_eq_true, List.all_eq_true] at h
  simp only [isRealWord, Bool.and_eq_false_iff]
  right
  rw [List.any_eq_false]
  intro c hc
  by_contra hx
  have hs := alnum_not_space c hx
  rw [h.2 c hc] at hs
  exact absurd hs (by simp)

/-- Closing step on a whitespace token (the `token.isspace()` branch of
line 648). -/
theorem groupTokens_cons_close_space (t : List Char) (rest cur : List (List Char))
    (wc : Nat) (hmax : (if isRealWord t = true then wc + 1 else wc) = MAX_WORDS_PER_CHUNK)
    (hsp : pyStrIsSpace t = true) :
    groupTokens (t :: rest) cur wc = (cur ++ [t]).flatten :: groupTokens rest [] 0 := by
  by_cases hr : isRealWord t = true <;> simp_all [groupTokens]

/-- The first chunk emitted from a nonempty pending accumulation starts
with the accumulation's first character. -/
theorem groupTokens_head (ts : List (List Char)) :
    ∀ (cur : List (List Char)) (wc : Nat), cur.flatten ≠ [] →
      ∃ ch tl, groupTokens ts cur wc = ch :: tl ∧ ch.head? = cur.flatten.head? := by
  induction ts with
  | nil =>
    intro cur wc h
    have hcne : cur ≠ [] := by
      intro hx
      simp [hx] at h
    by_cases hsp : cur.flatten.getLast? = some ' '
    · exact ⟨cur.flatten, [], groupTokens_nil_space cur wc hcne hsp, rfl⟩
    · exact ⟨cur.flatten ++ [' '], [], groupTokens_nil_nospace cur wc hcne hsp,
        List.head?_append_of_ne_nil _ h⟩
  | cons t rest ih =>
    intro cur wc h
    by_cases hmax : (if isRealWord t = true then wc + 1 else wc) = MAX_WORDS_PER_CHUNK
    · by_cases hsp : pyStrIsSpace t = true
      · refine ⟨(cur ++ [t]).flatten, _, groupTokens_cons_close_space t rest cur wc hmax hsp, ?_⟩
        rw [List.flatten_append]
        exact List.head?_append_of_ne_nil _ h
      · have hsp' : pyStrIsSpace t = false := by
          revert hsp
          cases pyStrIsSpace t <;> simp
        cases rest with
        | nil =>
          refine ⟨(cur ++ [t]).flatten ++ [' '], _,
            groupTokens_cons_close_last t cur wc hmax hsp', ?_⟩
          rw [List.flatten_append, List.append_assoc,
            List.head?_append_of_ne_nil _ h]
        | cons t2 rest2 =>
          by_cases hs2 : pyStrIsSpace t2 = true
          · refine ⟨(cur ++ [t] ++ [t2]).flatten, _,
              groupTokens_cons_close_nextspace t t2 rest2 cur wc hmax hsp' hs2, ?_⟩
            rw [List.flatten_append, List.flatten_append, List.append_assoc,
              List.head?_append_of_ne_nil _ h]
          · have hs2' : pyStrIsSpace t2 = false := by
              revert hs2
              cases pyStrIsSpace t2 <;> simp
            refine ⟨(cur ++ [t]).flatten ++ [' '], _,
              groupTokens_cons_close_synth t t2 rest2 cur wc hmax hsp' hs2', ?_⟩
            rw [List.flatten_append, List.append_assoc,
              List.head?_append_of_ne_nil _ h]
    · rw [groupTokens_cons_continue t rest cur wc hmax]
      obtain ⟨ch, tl, heq, hhd⟩ := ih (cur ++ [t]) _
        (by
          rw [List.flatten_append]
          intro hx
          exact h (List.append_eq_nil.mp hx).1)
      refine ⟨ch, tl, heq, ?_⟩
      rw [hhd, List.flatten_append, List.head?_append_of_ne_nil _ h]

/-- Real-word count of a token list extended by one token. -/
theorem filter_real_concat (A : List (List Char)) (t : List Char) :
    ((A ++ [t]).filter (fun x => isRealWord x)).length
      = (A.filter (fun x => isRealWord x)).length
        + (if isRealWord t = true then 1 else 0) := by
  by_cases h : isRealWord t = true <;> simp [List.filter_append, h]

/-- The number of real words in each chunk produced by the grouping loop is
at most the bound, counted by retokenizing the chunk. -/
theorem groupTokens_word_bound (ts : List (List Char)) :
    ∀ (cur : List (List Char)) (wc : Nat),
      (∀ x ∈ cur ++ ts, GoodToken x) →
      NoAdjWords (cur ++ ts) →
      wc = (cur.filter (fun x => isRealWord x)).length →
      wc < MAX_WORDS_PER_CHUNK →
      ∀ ch ∈ groupTokens ts cur wc,
        ((tokenize ch []).filter (fun x => isRealWord x)).length ≤ MAX_WORDS_PER_CHUNK := by
  induction ts with
  | nil =>
    intro cur wc hG hC hwc hlt ch hch
    by_cases hcne : cur = []
    · subst hcne
      rw [groupTokens_nil_nil] at hch
      simp at hch
    · have hGc : ∀ x ∈ cur, GoodToken x := fun x hx => hG x (by simpa using hx)
      have hCc : NoAdjWords cur := by
        have := hC
        rwa [List.append_nil] at this
      have hret : tokenize cur.flatten [] = cur := tokenize_of_good cur hGc hCc
      by_cases hsp : cur.flatten.getLast? = some ' '
      · rw [groupTokens_nil_space cur wc hcne hsp] at hch
        simp at hch
        subst hch
        rw [hret, ← hwc]
        omega
      · rw [groupTokens_nil_nospace cur wc hcne hsp] at hch
        simp at hch
        subst hch
        rw [tokenize_append_nonword ' ' (by decide) cur.flatten [], hret,
          filter_real_concat, if_neg (by decide), ← hwc]
        omega
  | cons t rest ih =>
    intro cur wc hG hC hwc hlt ch hch
    have hGcur2 : ∀ x ∈ cur ++ [t], GoodToken x := by
      intro x hx
      apply hG
      rcases List.mem_append.mp hx with h | h
      · exact List.mem_append.mpr (Or.inl h)
      · simp at h
        subst h
        simp
    have hshape : cur ++ t :: rest = (cur ++ [t]) ++ rest := by simp
    have hCcur2 : NoAdjWords (cur ++ [t]) := by
      have := hC
      rw [hshape] at this
      exact (List.chain'_append.mp this).1
    have hCrest : NoAdjWords rest := by
      have := hC
      rw [hshape] at this
      exact (List.chain'_append.mp this).2.1
    have hret2 : tokenize (cur ++ [t]).flatten [] = cur ++ [t] :=
      tokenize_of_good _ hGcur2 hCcur2
    have hwc2eq : ((cur ++ [t]).filter (fun x => isRealWord x)).length
        = (if isRealWord t = true then wc + 1 else wc) := by
      rw [filter_real_concat, ← hwc]
      by_cases h : isRealWord t = true <;> simp [h]
    by_cases hmax : (if isRealWord t = true then wc + 1 else wc) = MAX_WORDS_PER_CHUNK
    · have hGrest : ∀ x ∈ rest, GoodToken x := by
        intro x hx
        exact hG x (by simp [hx])
      by_cases hsp : pyStrIsSpace t = true
      · rw [groupTokens_cons_close_space t rest cur wc hmax hsp] at hch
        rcases List.mem_cons.mp hch with rfl | hch2
        · rw [hret2, hwc2eq, hmax]
        · exact ih [] 0 (by simpa using hGrest) (by simpa using hCrest) (by simp)
            (by simp [MAX_WORDS_PER_CHUNK]) ch hch2
      · have hsp' : pyStrIsSpace t = false := by
          revert hsp
          cases pyStrIsSpace t <;> simp
        cases rest with
        | nil =>
          rw [groupTokens_cons_close_last t cur wc hmax hsp'] at hch
          rcases List.mem_cons.mp hch with rfl | hch2
          · rw [tokenize_append_nonword ' ' (by decide) _ [], hret2,
              filter_real_concat, if_neg (by decide), hwc2eq, hmax]
            omega
          · simp at hch2
        | cons t2 rest2 =>
          have hGr2 : ∀ x ∈ (t2 :: rest2 : List (List Char)), GoodToken x := by
            intro x hx
            exact hG x (by simp [hx])
          have hCr2 : NoAdjWords (t2 :: rest2) := hCrest
          by_cases hs2 : pyStrIsSpace t2 = true
          · rw [groupTokens_cons_close_nextspace t t2 rest2 cur wc hmax hsp' hs2] at hch
            rcases List.mem_cons.mp hch with rfl | hch2
            · have hG3 : ∀ x ∈ (cur ++ [t]) ++ [t2], GoodToken x := by
                intro x hx
                rcases List.mem_append.mp hx with h | h
                · exact hGcur2 x h
                · simp at h
                  subst h
                  exact hG x (by simp)
              have hC3 : NoAdjWords ((cur ++ [t]) ++ [t2]) := by
                have := hC
                rw [show cur ++ t :: t2 :: rest2 = ((cur ++ [t]) ++ [t2]) ++ rest2
                  by simp] at this
                exact (List.chain'_append.mp this).1
              have hret3 : tokenize ((cur ++ [t]) ++ [t2]).flatten [] = (cur ++ [t]) ++ [t2] :=
                tokenize_of_good _ hG3 hC3
              rw [show cur ++ [t] ++ [t2] = (cur ++ [t]) ++ [t2] from rfl, hret3,
                filter_real_concat, if_neg (by simp [spaceStr_not_real t2 hs2]), hwc2eq, hmax]
              omega
            · exact ih [] 0 (by simpa using hGr2) (by simpa using hCr2) (by simp)
                (by simp [MAX_WORDS_PER_CHUNK]) ch hch2
          · have hs2' : pyStrIsSpace t2 = false := by
              revert hs2
              cases pyStrIsSpace t2 <;> simp
            rw [groupTokens_cons_close_synth t t2 rest2 cur wc hmax hsp' hs2'] at hch
            rcases List.mem_cons.mp hch with rfl | hch2
            · rw [tokenize_append_nonword ' ' (by decide) _ [], hret2,
                filter_real_concat, if_neg (by decide), hwc2eq, hmax]
              omega
            · exact ih [] 0 (by simpa using hGr2) (by simpa using hCr2) (by simp)
                (by simp [MAX_WORDS_PER_CHUNK]) ch hch2
    · rw [groupTokens_cons_continue t rest cur wc hmax] at hch
      have hlt2 : (if isRealWord t = true then wc + 1 else wc) < MAX_WORDS_PER_CHUNK := by
        by_cases hr : isRealWord t = true
        · rw [if_pos hr] at hmax ⊢
          omega
        · rw [if_neg hr] at hmax ⊢
          omega
      exact ih (cur ++ [t]) _ (by rwa [← hshape]) (by rwa [← hshape])
        hwc2eq.symm hlt2 ch hch

/-- The trailing-space normalization does not change the real-word count. -/
theorem realWords_ensure (ch : List Char) :
    ((tokenize (ensureTrailingSpace ch) []).filter (fun x => isRealWord x)).length
      = ((tokenize ch []).filter (fun x => isRealWord x)).length := by
  by_cases h : ch.getLast? = some ' '
  · rw [ensureTrailingSpace, if_pos h]
  · rw [ensureTrailingSpace, if_neg h, tokenize_append_nonword ' ' (by decide) ch [],
      List.filter_append]
    simp [show isRealWord [' '] = false by decide]

/-- Every normalized chunk ends in a space. -/
theorem ensure_getLast (ch : List Char) :
    (ensureTrailingSpace ch).getLast? = some ' ' := by
  by_cases h : ch.getLast? = some ' ' <;> simp [ensureTrailingSpace, h]

/-- Word bound at the sentence level. -/
theorem chunkSentence_word_bound (s : List Char) :
    ∀ ch ∈ chunkSentence s,
      ((tokenize ch []).filter (fun x => isRealWord x)).length ≤ MAX_WORDS_PER_CHUNK := by
  intro ch hch
  exact groupTokens_word_bound (tokenize s []) [] 0
    (by simpa using tokenize_good s [] (by simp))
    (by simpa [NoAdjWords] using tokenize_chain s [])
    (by simp) (by simp [MAX_WORDS_PER_CHUNK]) ch (by simpa [chunkSentence] using hch)

/-- Decomposing membership in the final chunk list. -/
theorem chunk_text_mem (text : List Char) (ch : List Char) (h : ch ∈ chunk_text text) :
    ∃ s ∈ splitSentences text, ∃ ch0 ∈ chunkSentence s, ch = ensureTrailingSpace ch0 := by
  rw [chunk_text] at h
  obtain ⟨ch0, hch0, rfl⟩ := List.mem_map.mp h
  obtain ⟨l, hl, hch1⟩ := List.mem_flatten.mp hch0
  obtain ⟨s, hs, rfl⟩ := List.mem_map.mp hl
  exact ⟨s, hs, ch0, hch1, rfl⟩

/-! ### Nonemptiness of the chunk sequence -/

/-- The sentence splitter returns at least one sentence when there is
material. -/
theorem splitSentencesGo_ne_nil_out (t cur : List Char) :
    (t ≠ [] ∨ cur ≠ []) → splitSentencesGo t cur ≠ [] := by
  induction t, cur using splitSentencesGo.induct with
  | case1 =>
    intro h
    rcases h with h | h <;> exact absurd rfl h
  | case2 cur h => simp [splitSentencesGo, h]
  | case3 cur => simp [splitSentencesGo]
  | case4 c cur h1 h2 =>
    intro _
    rw [splitSentencesGo.eq_def]
    simp [h1, h2]
  | case5 c cur h1 h2 ih =>
    intro _
    rw [splitSentencesGo.eq_def]
    simp only [h1, h2, if_neg, Bool.false_eq_true, if_false]
    exact ih (Or.inr (by simp))
  | case6 c2 rest2 cur ih =>
    intro _
    rw [splitSentencesGo.eq_def]
    simp
  | case7 c c2 rest2 cur h1 h2 h3 ih =>
    intro _
    rw [splitSentencesGo.eq_def]
    simp [h1, h2, h3]
  | case8 c c2 rest2 cur h1 h2 h3 ih =>
    intro _
    rw [splitSentencesGo.eq_def]
    simp [h1, h2, h3]
  | case9 c c2 rest2 cur h1 h2 ih =>
    intro _
    rw [splitSentencesGo.eq_def]
    simp only [h1, h2, if_neg, Bool.false_eq_true, if_false]
    exact ih (Or.inl (by simp))

/-- The tokenizer returns at least one token when there is material. -/
theorem tokenize_ne_nil (s : List Char) :
    ∀ acc, (s ≠ [] ∨ acc ≠ []) → tokenize s acc ≠ [] := by
  induction s with
  | nil =>
    intro acc h
    rcases h with h | h
    · exact absurd rfl h
    · simp [tokenize, h]
  | cons c rest ih =>
    intro acc _
    by_cases h : isWordChar c = true
    · simp only [tokenize, h, if_pos]
      exact ih (acc ++ [c]) (Or.inr (by simp))
    · by_cases h2 : acc = [] <;> simp [tokenize, h, h2]

/-- The grouping loop returns at least one chunk when there is material. -/
theorem groupTokens_ne_nil (ts : List (List Char)) :
    ∀ cur wc, (ts ≠ [] ∨ cur ≠ []) → groupTokens ts cur wc ≠ [] := by
  induction ts with
  | nil =>
    intro cur wc h
    rcases h with h | h
    · exact absurd rfl h
    · by_cases hsp : cur.flatten.getLast? = some ' '
      · simp [groupTokens_nil_space cur wc h hsp]
      · simp [groupTokens_nil_nospace cur wc h hsp]
  | cons t rest ih =>
    intro cur wc _
    by_cases hmax : (if isRealWord t = true then wc + 1 else wc) = MAX_WORDS_PER_CHUNK
    · by_cases hsp : pyStrIsSpace t = true
      · simp [groupTokens_cons_close_space t rest cur wc hmax hsp]
      · have hsp' : pyStrIsSpace t = false := by
          revert hsp
          cases pyStrIsSpace t <;> simp
        cases rest with
        | nil => simp [groupTokens_cons_close_last t cur wc hmax hsp']
        | cons t2 rest2 =>
          by_cases hs2 : pyStrIsSpace t2 = true
          · simp [groupTokens_cons_close_nextspace t t2 rest2 cur wc hmax hsp' hs2]
          · have hs2' : pyStrIsSpace t2 = false := by
              revert hs2
              cases pyStrIsSpace t2 <;> simp
            simp [groupTokens_cons_close_synth t t2 rest2 cur wc hmax hsp' hs2']
    · rw [groupTokens_cons_continue t rest cur wc hmax]
      exact ih _ _ (Or.inr (by simp))

/-- A nonempty text always produces at least one chunk. -/
theorem chunk_text_ne_nil (text : List Char) (h : text ≠ []) :
    chunk_text text ≠ [] := by
  rw [chunk_text]
  have hsen : splitSentences text ≠ [] :=
    splitSentencesGo_ne_nil_out text [] (Or.inl h)
  obtain ⟨s, sl, hsl⟩ := List.exists_cons_of_ne_nil hsen
  have hs_ne : s ≠ [] := splitSentencesGo_ne_nil text [] s (by rw [← splitSentences]; simp [hsl])
  have htok : tokenize s [] ≠ [] := tokenize_ne_nil s [] (Or.inl hs_ne)
  have hchunks : chunkSentence s ≠ [] := groupTokens_ne_nil (tokenize s []) [] 0 (Or.inl htok)
  rw [hsl]
  simp only [List.map_cons, List.flatten_cons]
  intro hx
  rw [List.map_eq_nil] at hx
  exact hchunks (List.append_eq_nil.mp hx).1

/-! ### Sentence-boundary behavior -/

/-- Characters that are not sentence boundaries are accumulated without
producing a sentence. -/
theorem splitSentencesGo_accum (u : List Char) :
    ∀ w cur, (∀ x ∈ u, isSentenceBoundary x = false) →
      splitSentencesGo (u ++ w) cur = splitSentencesGo w (cur ++ u) := by
  induction u with
  | nil =>
    intro w cur _
    simp
  | cons x u2 ih =>
    intro w cur hb
    have hx : isSentenceBoundary x = false := hb x (by simp)
    have hxn : ¬x = '\n' := by
      intro hE
      rw [hE] at hx
      exact absurd hx (by decide)
    cases hu : u2 ++ w with
    | nil =>
      have hu2 : u2 = [] := (List.append_eq_nil.mp hu).1
      have hw : w = [] := (List.append_eq_nil.mp hu).2
      subst hu2
      subst hw
      rw [List.cons_append, List.append_nil, splitSentencesGo.eq_def]
      simp [hxn, hx]
    | cons c2 rest2 =>
      have hsh : (x :: u2) ++ w = x :: c2 :: rest2 := by
        rw [List.cons_append, hu]
      rw [hsh, splitSentencesGo.eq_def]
      simp only [hxn, hx, if_neg, Bool.false_eq_true, if_false]
      rw [← hu, ih w (cur ++ [x]) (fun y hy => hb y (by simp [hy]))]
      simp

/-- A non-newline terminator not followed by closing punctuation closes the
sentence, keeping the terminator as its last character. -/
theorem splitSentences_terminator (u v : List Char) (c : Char)
    (hu : ∀ x ∈ u, isSentenceBoundary x = false)
    (hc : c = '.' ∨ c = '!' ∨ c = '?' ∨ c = '|')
    (hv : ∀ hd, v.head? = some hd → isClosingPunct hd = false) :
    splitSentences (u ++ c :: v) = (u ++ [c]) :: splitSentences v := by
  have hcb : isSentenceBoundary c = true := by
    rcases hc with rfl | rfl | rfl | rfl <;> decide
  have hcn : ¬c = '\n' := by
    rcases hc with rfl | rfl | rfl | rfl <;> decide
  rw [splitSentences, splitSentencesGo_accum u (c :: v) [] hu, List.nil_append]
  cases v with
  | nil =>
    rw [splitSentencesGo.eq_def]
    simp [hcn, hcb, splitSentences, splitSentencesGo]
  | cons hd v2 =>
    have hhd : isClosingPunct hd = false := hv hd rfl
    rw [splitSentencesGo.eq_def]
    simp only [hcn, hcb, hhd, if_neg, if_pos, Bool.false_eq_true, if_false, if_true]
    rfl

/-- A non-newline terminator immediately followed by closing punctuation
absorbs it into the sentence. -/
theorem splitSentences_absorb (u v2 : List Char) (c c2 : Char)
    (hu : ∀ x ∈ u, isSentenceBoundary x = false)
    (hc : c = '.' ∨ c = '!' ∨ c = '?' ∨ c = '|')
    (hc2 : isClosingPunct c2 = true) :
    splitSentences (u ++ c :: c2 :: v2) = (u ++ [c, c2]) :: splitSentences v2 := by
  have hcb : isSentenceBoundary c = true := by
    rcases hc with rfl | rfl | rfl | rfl <;> decide
  have hcn : ¬c = '\n' := by
    rcases hc with rfl | rfl | rfl | rfl <;> decide
  rw [splitSentences, splitSentencesGo_accum u (c :: c2 :: v2) [] hu, List.nil_append,
    splitSentencesGo.eq_def]
  simp only [hcn, hcb, hc2, if_neg, if_pos, Bool.false_eq_true, if_false, if_true]
  rfl

/-- A newline closes the sentence, is kept as its last character, and never
absorbs a following character. -/
theorem splitSentences_newline (u v : List Char)
    (hu : ∀ x ∈ u, isSentenceBoundary x = false) :
    splitSentences (u ++ '\n' :: v) = (u ++ ['\n']) :: splitSentences v := by
  rw [splitSentences, splitSentencesGo_accum u ('\n' :: v) [] hu, List.nil_append]
  cases v with
  | nil =>
    rw [splitSentencesGo.eq_def]
    simp [splitSentences, splitSentencesGo]
  | cons hd v2 =>
    rw [splitSentencesGo.eq_def]
    simp only [if_pos]
    rfl

/-- Text containing no boundary characters forms a single sentence. -/
theorem splitSentences_noboundary (u : List Char) (hne : u ≠ [])
    (hu : ∀ x ∈ u, isSentenceBoundary x = false) :
    splitSentences u = [u] := by
  rw [splitSentences, show u = u ++ [] by simp,
    splitSentencesGo_accum u [] [] hu, List.nil_append, splitSentencesGo.eq_def]
  simp [hne]

/-- Unfolding the request generator for a voice with the "chirp" marker. -/
theorem requests_chirp (st : Settings) (voice text : List Char)
    (h : containsSub (str "chirp") (voice.map Char.toLower) = true) :
    _create_streaming_requests st voice text
      = SynthRequest.config st.language voice
        :: (chunk_text text).map (fun ch => SynthRequest.textInput ch) := by
  rw [_create_streaming_requests]
  simp [h]

/-- Unfolding the request generator for a voice with the "journey" marker. -/
theorem requests_journey (st : Settings) (voice text : List Char)
    (h : containsSub (str "journey") (voice.map Char.toLower) = true) :
    _create_streaming_requests st voice text
      = SynthRequest.config st.language voice
        :: (chunk_text text).map (fun ch => SynthRequest.textInput ch) := by
  rw [_create_streaming_requests]
  simp [h]

/-- Unfolding the request generator for a voice with no plain-text marker. -/
theorem requests_ssml (st : Settings) (voice text : List Char)
    (h1 : containsSub (str "chirp") (voice.map Char.toLower) = false)
    (h2 : containsSub (str "journey") (voice.map Char.toLower) = false) :
    _create_streaming_requests st voice text
      = SynthRequest.config st.language voice
        :: (chunk_text text).map (fun ch => SynthRequest.ssmlInput (_construct_ssml voice st ch)) := by
  rw [_create_streaming_requests]
  simp [h1, h2]

/-- Input requests are never configuration requests. -/
theorem inputs_not_config (use_ssml : Bool) (voice : List Char) (st : Settings)
    (chs : List (List Char)) :
    ∀ r ∈ chs.map (fun ch =>
      if use_ssml then SynthRequest.ssmlInput (_construct_ssml voice st ch)
      else SynthRequest.textInput ch), isConfigRequest r = false := by
  intro r hr
  obtain ⟨ch, -, rfl⟩ := List.mem_map.mp hr
  cases use_ssml <;> simp [isConfigRequest]

/-- Every event of the response loop is either the timer stop or an audio
frame. -/
theorem responseEvents_shape (sr : Nat) (rs : List (List Nat)) :
    ∀ b, ∀ e ∈ responseEvents sr rs b,
      e = TTSEvent.stopTTFB ∨ ∃ d r c, e = TTSEvent.frame (TTSFrame.audio d r c) := by
  induction rs with
  | nil =>
    intro b e he
    simp [responseEvents] at he
  | cons r rest ih =>
    intro b e he
    simp only [responseEvents, List.mem_append] at he
    rcases he with (he | he) | he
    · cases b
      · simp at he
        subst he
        exact Or.inl rfl
      · simp at he
    · obtain ⟨f, hf, rfl⟩ := List.mem_map.mp he
      obtain ⟨i, -, rfl⟩ := List.mem_map.mp hf
      exact Or.inr ⟨_, _, _, rfl⟩
    · exact ih true e he

/-- The timer-stop event never occurs once the flag is set. -/
theorem responseEvents_count_true (sr : Nat) (rs : List (List Nat)) :
    (responseEvents sr rs true).count TTSEvent.stopTTFB = 0 := by
  induction rs with
  | nil => simp [responseEvents]
  | cons r rest ih =>
    simp only [responseEvents, List.count_append, ih, if_true]
    have hz : List.count TTSEvent.stopTTFB
        (List.map TTSEvent.frame (audioFrames sr r)) = 0 := by
      rw [List.count_eq_zero]
      intro hmem
      obtain ⟨f, -, hf⟩ := List.mem_map.mp hmem
      exact absurd hf (by simp)
    simp [hz]

/-- On the first response the timer stop leads the events. -/
theorem responseEvents_false_cons (sr : Nat) (r : List Nat) (rs : List (List Nat)) :
    responseEvents sr (r :: rs) false
      = TTSEvent.stopTTFB
        :: ((audioFrames sr r).map TTSEvent.frame ++ responseEvents sr rs true) := by
  simp [responseEvents]

/-- With at least one response the timer stop happens exactly once. -/
theorem responseEvents_count_false (sr : Nat) (r : List Nat) (rs : List (List Nat)) :
    (responseEvents sr (r :: rs) false).count TTSEvent.stopTTFB = 1 := by
  rw [responseEvents_false_cons]
  have hz : List.count TTSEvent.stopTTFB
      (List.map TTSEvent.frame (audioFrames sr r)) = 0 := by
    rw [List.count_eq_zero]
    intro hmem
    obtain ⟨f, -, hf⟩ := List.mem_map.mp hmem
    exact absurd hf (by simp)
  simp [List.count_append, hz, responseEvents_count_true]

/-- The timer-stop count of a whole call equals that of its response loop. -/
theorem run_tts_count_ttfb (sr : Nat) (rs : List (List Nat)) (failure : Option (List Char)) :
    (run_tts_events sr rs failure).count TTSEvent.stopTTFB
      = (responseEvents sr rs false).count TTSEvent.stopTTFB := by
  cases failure <;> simp [run_tts_events, List.count_append]

/-- Intercalation of a two-element list. -/
theorem intercalate_pair (s a b : List Char) :
    List.intercalate s [a, b] = a ++ s ++ b := by
  simp [List.intercalate, List.intersperse]

/-! ## Claim theorems -/

/-- C1 counterexample: for the input "a " the chunker returns the single
chunk "a ", and stripping its one trailing space loses the original
trailing space, so strip-concatenation does not reconstruct the input;
the claim as stated, quantified over every input, is therefore false. -/
theorem c1_counterexample :
    ¬ (((chunk_text (str "a ")).map stripOneTrailingSpace).flatten = str "a ") := by
  decide

/-- C1 (corrected): for every input text whose whitespace characters are
all plain spaces and which does not end in a space, concatenating the
chunks returned by `_chunk_text` after stripping exactly one trailing
space from each reconstructs the original input text exactly.  (An input
ending in a space loses that final space, and whitespace other than a
plain space is duplicated when it closes a chunk at the word bound.) -/
theorem c1_reconstruction (text : List Char)
    (hws : ∀ c ∈ text, pyIsSpace c = true → c = ' ')
    (hlast : text.getLast? ≠ some ' ') :
    ((chunk_text text).map stripOneTrailingSpace).flatten = text :=
  chunk_text_strip_aux text hws hlast

/-- Witness for C1 at the input "Hello there. How are you?". -/
theorem c1_reconstruction_witness :
    (∀ c ∈ str "Hello there. How are you?", pyIsSpace c = true → c = ' ')
    ∧ (str "Hello there. How are you?").getLast? ≠ some ' '
    ∧ ((chunk_text (str "Hello there. How are you?")).map stripOneTrailingSpace).flatten
        = str "Hello there. How are you?" :=
  ⟨by decide, by decide,
    c1_reconstruction (str "Hello there. How are you?") (by decide) (by decide)⟩

/-- C2 (confirmed): when a chunk closes because the token after its
`MAX_WORDS_PER_CHUNK`-th word is a space token, that space token is
appended to the closing chunk and the recursion continues on the token
list still headed by the very same space token (the `i += 1` at line 658
does not advance the `enumerate` iterator); the next chunk therefore
starts with the same original space, and the plain concatenation of the
emitted chunks carries two adjacent spaces where the input has one.
Concretely, "a b c d" chunks to ["a b c ", " d "]. -/
theorem c2_space_duplication (t : List Char) (rest2 cur : List (List Char)) (wc : Nat)
    (hreal : isRealWord t = true) (hwc : wc + 1 = MAX_WORDS_PER_CHUNK) :
    groupTokens (t :: [' '] :: rest2) cur wc
      = (cur ++ [t] ++ [[' ']]).flatten :: groupTokens ([' '] :: rest2) [] 0
    ∧ ((cur ++ [t] ++ [[' ']]).flatten).getLast? = some ' '
    ∧ (∃ ch tl, groupTokens ([' '] :: rest2) [] 0 = ch :: tl ∧ ch.head? = some ' ')
    ∧ (∃ tail, (groupTokens (t :: [' '] :: rest2) cur wc).flatten
        = cur.flatten ++ t ++ [' ', ' '] ++ tail)
    ∧ chunk_text (str "a b c d") = [str "a b c ", str " d "] := by
  have hmax : (if isRealWord t = true then wc + 1 else wc) = MAX_WORDS_PER_CHUNK := by
    rw [if_pos hreal]
    exact hwc
  have hns : pyStrIsSpace t = false := isRealWord_not_spaceStr t hreal
  have heq := groupTokens_cons_close_nextspace t [' '] rest2 cur wc hmax hns (by decide)
  have hflat : (cur ++ [t] ++ [[' ']]).flatten = (cur ++ [t]).flatten ++ [' '] := by
    simp
  have hstep : groupTokens ([' '] :: rest2) [] 0 = groupTokens rest2 [[' ']] 0 := by
    rw [groupTokens_cons_continue [' '] rest2 [] 0
      (by rw [if_neg (by decide)]; simp [MAX_WORDS_PER_CHUNK]),
      if_neg (by decide), List.nil_append]
  obtain ⟨ch, tl, htl, hhd⟩ := groupTokens_head rest2 [[' ']] 0 (by simp)
  have hch : groupTokens ([' '] :: rest2) [] 0 = ch :: tl := by rw [hstep, htl]
  have hhd2 : ch.head? = some ' ' := by
    rw [hhd]
    simp
  refine ⟨heq, by rw [hflat, List.getLast?_concat], ⟨ch, tl, hch, hhd2⟩, ?_, by decide⟩
  obtain ⟨ch2, rfl⟩ : ∃ ch2, ch = ' ' :: ch2 := by
    cases ch with
    | nil => simp at hhd2
    | cons a l =>
      simp at hhd2
      subst hhd2
      exact ⟨l, rfl⟩
  refine ⟨ch2 ++ tl.flatten, ?_⟩
  rw [heq, List.flatten_cons, hch, hflat]
  simp

/-- Witness for C2 with the word "abc" after two words. -/
theorem c2_space_duplication_witness :
    isRealWord (str "abc") = true
    ∧ 2 + 1 = MAX_WORDS_PER_CHUNK
    ∧ (groupTokens [str "abc", [' ']] [] 2
        = ([] ++ [str "abc"] ++ [[' ']]).flatten :: groupTokens [[' ']] [] 0
      ∧ (([] ++ [str "abc"] ++ [[' ']]).flatten).getLast? = some ' '
      ∧ (∃ ch tl, groupTokens [[' ']] [] 0 = ch :: tl ∧ ch.head? = some ' ')
      ∧ (∃ tail, (groupTokens [str "abc", [' ']] [] 2).flatten
          = ([] : List (List Char)).flatten ++ str "abc" ++ [' ', ' '] ++ tail)
      ∧ chunk_text (str "a b c d") = [str "a b c ", str " d "]) :=
  ⟨by decide, by decide, c2_space_duplication (str "abc") [] [] 2 (by decide) (by decide)⟩

/-- C3 counterexample: on input "a  " the single emitted chunk "a  " ends
in two trailing spaces, not exactly one; and on "QQQ a b c d" with the
word QQQ replaced by three apostrophes the first emitted chunk contains
four maximal runs of word characters, so the word bound holds only for
runs containing at least one alphanumeric character. -/
theorem c3_counterexample :
    chunk_text (str "a  ") = [str "a  "]
    ∧ (str "a  ").getLast? = some ' '
    ∧ ((str "a  ").dropLast).getLast? = some ' '
    ∧ chunk_text (str "''' a b c d") = [str "''' a b c ", str " d "]
    ∧ ((tokenize (str "''' a b c ") []).filter
        (fun t => !t.isEmpty && t.all isWordChar)).length = 4 := by
  decide

/-- C3 (corrected): every chunk emitted by `_chunk_text` — including final
chunks — contains at most `MAX_WORDS_PER_CHUNK` = 3 real words, where a
real word is a maximal run of alphanumeric-or-apostrophe characters
containing at least one alphanumeric character, and every emitted chunk
ends with at least one (though not always exactly one) trailing space. -/
theorem c3_word_bound (text ch : List Char) (h : ch ∈ chunk_text text) :
    ((tokenize ch []).filter (fun x => isRealWord x)).length ≤ MAX_WORDS_PER_CHUNK
    ∧ ch.getLast? = some ' ' := by
  obtain ⟨s, hs, ch0, hch0, rfl⟩ := chunk_text_mem text ch h
  exact ⟨by rw [realWords_ensure]; exact chunkSentence_word_bound s ch0 hch0,
    ensure_getLast ch0⟩

/-- Witness for C3 at a concrete chunk of a concrete input. -/
theorem c3_word_bound_witness :
    (str "Hello there. " ∈ chunk_text (str "Hello there. How are you?"))
    ∧ (((tokenize (str "Hello there. ") []).filter (fun x => isRealWord x)).length
          ≤ MAX_WORDS_PER_CHUNK
      ∧ (str "Hello there. ").getLast? = some ' ') :=
  ⟨by decide, c3_word_bound (str "Hello there. How are you?") (str "Hello there. ") (by decide)⟩

/-- C4 counterexample: the Devanagari danda U+0964 does not split (it is
not in the code's boundary list), the ASCII vertical bar U+007C does, and
a newline followed by a closing bracket does not absorb it — three
concrete refutations of the claim's terminator set and absorption rule. -/
theorem c4_counterexample :
    splitSentences (str "a।b") = [str "a।b"]
    ∧ splitSentences (str "a|b") = [str "a|", str "b"]
    ∧ splitSentences (str "a\n)b") = [str "a\n", str ")b"] := by
  decide

/-- C4 (corrected): the sentence terminators are exactly '.', '!', '?',
the ASCII vertical bar U+007C and newline; a non-newline terminator
immediately followed by a closing quote or bracket character absorbs that
character into the same sentence; a newline terminator is retained as the
last character of its sentence and absorbs nothing; and terminator-free
text forms a single sentence. -/
theorem c4_boundaries :
    (∀ c, isSentenceBoundary c = true ↔ (c = '.' ∨ c = '!' ∨ c = '?' ∨ c = '|' ∨ c = '\n'))
    ∧ (∀ u v c, (∀ x ∈ u, isSentenceBoundary x = false) →
        (c = '.' ∨ c = '!' ∨ c = '?' ∨ c = '|') →
        (∀ hd, v.head? = some hd → isClosingPunct hd = false) →
        splitSentences (u ++ c :: v) = (u ++ [c]) :: splitSentences v)
    ∧ (∀ u v2 c c2, (∀ x ∈ u, isSentenceBoundary x = false) →
        (c = '.' ∨ c = '!' ∨ c = '?' ∨ c = '|') →
        isClosingPunct c2 = true →
        splitSentences (u ++ c :: c2 :: v2) = (u ++ [c, c2]) :: splitSentences v2)
    ∧ (∀ u v, (∀ x ∈ u, isSentenceBoundary x = false) →
        splitSentences (u ++ '\n' :: v) = (u ++ ['\n']) :: splitSentences v)
    ∧ (∀ u, u ≠ [] → (∀ x ∈ u, isSentenceBoundary x = false) →
        splitSentences u = [u]) := by
  refine ⟨?_, ?_, ?_, ?_, ?_⟩
  · intro c
    simp only [isSentenceBoundary, Bool.or_eq_true, decide_eq_true_eq]
    tauto
  · intro u v c hu hc hv
    exact splitSentences_terminator u v c hu hc hv
  · intro u v2 c c2 hu hc hc2
    exact splitSentences_absorb u v2 c c2 hu hc hc2
  · intro u v hu
    exact splitSentences_newline u v hu
  · intro u hne hu
    exact splitSentences_noboundary u hne hu

/-- Witness for C4: a period after "ab" followed by " cd" splits there. -/
theorem c4_boundaries_witness :
    (∀ x ∈ str "ab", isSentenceBoundary x = false)
    ∧ ('.' = '.' ∨ '.' = '!' ∨ '.' = '?' ∨ '.' = '|')
    ∧ (∀ hd, (str " cd").head? = some hd → isClosingPunct hd = false)
    ∧ splitSentences (str "ab" ++ '.' :: str " cd")
        = (str "ab" ++ ['.']) :: splitSentences (str " cd") :=
  ⟨by decide, by decide, by decide,
    c4_boundaries.2.1 (str "ab") (str " cd") '.' (by decide) (by decide) (by decide)⟩

/-- C5 counterexample: the whitespace-only input " " yields the non-empty
chunk sequence [" "], refuting the claim that every whitespace-only input
yields an empty chunk sequence. -/
theorem c5_counterexample :
    chunk_text (str " ") = [str " "] ∧ chunk_text (str " ") ≠ [] := by
  decide

/-- C5 (corrected): the empty input yields an empty chunk sequence, and a
call whose response sequence is empty and does not fail emits only the
start and stop markers with no audio and no error event; but every
nonempty input — whitespace-only inputs included — yields a non-empty
chunk sequence. -/
theorem c5_empty_behavior :
    chunk_text [] = []
    ∧ (∀ sr, run_tts_events sr [] none
        = [TTSEvent.frame TTSFrame.started, TTSEvent.frame TTSFrame.stopped])
    ∧ (∀ text, text ≠ [] → chunk_text text ≠ []) := by
  refine ⟨by decide, fun sr => ?_, chunk_text_ne_nil⟩
  simp [run_tts_events, responseEvents]

/-- Witness for C5 at the whitespace-only input " ". -/
theorem c5_empty_behavior_witness :
    (str " " ≠ []) ∧ chunk_text (str " ") ≠ [] :=
  ⟨by decide, c5_empty_behavior.2.2 (str " ") (by decide)⟩

/-- C6 (confirmed): a voice whose identifier contains "chirp" in any case
receives a plain-text input request for every chunk and never a markup
request; a voice containing no plain-text marker has every chunk wrapped
by the SSML builder and sent as markup; and in both cases the sequence is
exactly one configuration request followed by one input request per
chunk. -/
theorem c6_request_encoding (st : Settings) (voice text : List Char) :
    (containsSub (str "chirp") (voice.map Char.toLower) = true →
      _create_streaming_requests st voice text
        = SynthRequest.config st.language voice
          :: (chunk_text text).map (fun ch => SynthRequest.textInput ch))
    ∧ (containsSub (str "chirp") (voice.map Char.toLower) = false →
       containsSub (str "journey") (voice.map Char.toLower) = false →
      _create_streaming_requests st voice text
        = SynthRequest.config st.language voice
          :: (chunk_text text).map
              (fun ch => SynthRequest.ssmlInput (_construct_ssml voice st ch)))
    ∧ (_create_streaming_requests st voice text).head?
        = some (SynthRequest.config st.language voice)
    ∧ (_create_streaming_requests st voice text).filter isConfigRequest
        = [SynthRequest.config st.language voice]
    ∧ (_create_streaming_requests st voice text).length
        = (chunk_text text).length + 1 := by
  refine ⟨requests_chirp st voice text, requests_ssml st voice text, ?_, ?_, ?_⟩
  · rw [_create_streaming_requests]
    rfl
  · rw [_create_streaming_requests]
    rw [List.filter_cons_of_pos (by simp [isConfigRequest])]
    rw [List.filter_eq_nil_iff.mpr]
    intro r hr
    have := inputs_not_config
      (!(containsSub (str "chirp") (voice.map Char.toLower)
          || containsSub (str "journey") (voice.map Char.toLower)))
      voice st (chunk_text text) r hr
    simp [this]
  · rw [_create_streaming_requests]
    simp

/-- Witness for C6 for a chirp voice. -/
theorem c6_request_encoding_witness :
    containsSub (str "chirp") ((str "en-US-Chirp3-HD").map Char.toLower) = true
    ∧ _create_streaming_requests (initSettings {}) (str "en-US-Chirp3-HD") (str "a b")
        = SynthRequest.config (initSettings {}).language (str "en-US-Chirp3-HD")
          :: (chunk_text (str "a b")).map (fun ch => SynthRequest.textInput ch) :=
  ⟨by decide,
    (c6_request_encoding (initSettings {}) (str "en-US-Chirp3-HD") (str "a b")).1 (by decide)⟩

/-- C7 (confirmed): a voice whose identifier contains "journey" in any
case likewise receives a plain-text input request for every chunk and
never a markup request, exactly as for "chirp" voices. -/
theorem c7_journey_plaintext (st : Settings) (voice text : List Char)
    (h : containsSub (str "journey") (voice.map Char.toLower) = true) :
    _create_streaming_requests st voice text
      = SynthRequest.config st.language voice
        :: (chunk_text text).map (fun ch => SynthRequest.textInput ch) :=
  requests_journey st voice text h

/-- Witness for C7 for a journey voice. -/
theorem c7_journey_plaintext_witness :
    containsSub (str "journey") ((str "en-US-Journey-F").map Char.toLower) = true
    ∧ _create_streaming_requests (initSettings {}) (str "en-US-Journey-F") (str "a b")
        = SynthRequest.config (initSettings {}).language (str "en-US-Journey-F")
          :: (chunk_text (str "a b")).map (fun ch => SynthRequest.textInput ch) :=
  ⟨by decide,
    c7_journey_plaintext (initSettings {}) (str "en-US-Journey-F") (str "a b") (by decide)⟩

/-- C8 (confirmed): when an exception with message `m` interrupts a call
after the responses `rs` were processed, the event sequence starts with
the start marker, continues with only timer-stop and audio events, ends
with exactly one error event carrying the descriptive message, and
contains no stop marker; the model is a total function, so the exception
never reaches the caller. -/
theorem c8_error_path (sr : Nat) (rs : List (List Nat)) (m : List Char) :
    (run_tts_events sr rs (some m)).head? = some (TTSEvent.frame TTSFrame.started)
    ∧ (run_tts_events sr rs (some m)).filter isErrorEvent
        = [TTSEvent.frame (TTSFrame.error (str "Streaming TTS generation error: " ++ m))]
    ∧ (run_tts_events sr rs (some m)).getLast?
        = some (TTSEvent.frame (TTSFrame.error (str "Streaming TTS generation error: " ++ m)))
    ∧ (run_tts_events sr rs (some m)).filter isStopEvent = []
    ∧ (∀ e ∈ responseEvents sr rs false,
        e = TTSEvent.stopTTFB ∨ isAudioEvent e = true) := by
  have hmid : ∀ e ∈ responseEvents sr rs false,
      e = TTSEvent.stopTTFB ∨ ∃ d r c, e = TTSEvent.frame (TTSFrame.audio d r c) :=
    responseEvents_shape sr rs false
  have hmid_err : ∀ e ∈ responseEvents sr rs false, isErrorEvent e = false := by
    intro e he
    rcases hmid e he with rfl | ⟨d, r, c, rfl⟩ <;> simp [isErrorEvent]
  have hmid_stop : ∀ e ∈ responseEvents sr rs false, isStopEvent e = false := by
    intro e he
    rcases hmid e he with rfl | ⟨d, r, c, rfl⟩ <;> simp [isStopEvent]
  refine ⟨by simp [run_tts_events], ?_, ?_, ?_, ?_⟩
  · simp only [run_tts_events, List.filter_cons, List.filter_append]
    rw [List.filter_eq_nil_iff.mpr (by intro e he; simp [hmid_err e he])]
    simp [isErrorEvent]
  · simp only [run_tts_events]
    rw [show TTSEvent.frame TTSFrame.started
          :: responseEvents sr rs false
          ++ [TTSEvent.frame (TTSFrame.error (str "Streaming TTS generation error: " ++ m))]
        = (TTSEvent.frame TTSFrame.started :: responseEvents sr rs false)
          ++ [TTSEvent.frame (TTSFrame.error (str "Streaming TTS generation error: " ++ m))]
        by simp]
    rw [List.getLast?_concat]
  · simp only [run_tts_events, List.filter_cons, List.filter_append]
    rw [List.filter_eq_nil_iff.mpr (by intro e he; simp [hmid_stop e he])]
    simp [isStopEvent]
  · intro e he
    rcases hmid e he with rfl | ⟨d, r, c, rfl⟩
    · exact Or.inl rfl
    · exact Or.inr (by simp [isAudioEvent])

/-- C9 (confirmed): the time-to-first-byte timer stop happens exactly
once on every call with at least one response — as the very first event
of the response processing, before any audio — and never on a call whose
response sequence is empty. -/
theorem c9_ttfb_once (sr : Nat) (rs : List (List Nat)) (failure : Option (List Char)) :
    (rs ≠ [] → (run_tts_events sr rs failure).count TTSEvent.stopTTFB = 1
      ∧ (responseEvents sr rs false).head? = some TTSEvent.stopTTFB)
    ∧ (rs = [] → (run_tts_events sr rs failure).count TTSEvent.stopTTFB = 0) := by
  constructor
  · intro h
    obtain ⟨r, rest, rfl⟩ := List.exists_cons_of_ne_nil h
    refine ⟨?_, ?_⟩
    · rw [run_tts_count_ttfb]
      exact responseEvents_count_false sr r rest
    · rw [responseEvents_false_cons]
      rfl
  · intro h
    subst h
    rw [run_tts_count_ttfb]
    simp [responseEvents]

/-- Witness for C9 with a single one-byte response. -/
theorem c9_ttfb_once_witness :
    (([[0]] : List (List Nat)) ≠ [])
    ∧ ((run_tts_events 24000 [[0]] none).count TTSEvent.stopTTFB = 1
      ∧ (responseEvents 24000 [[0]] false).head? = some TTSEvent.stopTTFB) :=
  ⟨by decide, (c9_ttfb_once 24000 [[0]] none).1 (by decide)⟩

/-- C10 (confirmed): a language supplied at construction but absent from
the lookup table is stored as the missing value (not as the "en-US"
default, which applies only when no language is supplied at all), and
that missing value flows into the configuration request's language code
and renders as "None" inside the built SSML's voice tag. -/
theorem c10_language_missing (l : PipecatLanguage)
    (h : language_to_google_tts_language l = none) :
    (initSettings { language := some l }).language = none
    ∧ (initSettings { language := some l }).language ≠ some (str "en-US")
    ∧ (initSettings { language := none }).language = some (str "en-US")
    ∧ (∀ voice text, (_create_streaming_requests (initSettings { language := some l }) voice text).head?
        = some (SynthRequest.config none voice))
    ∧ (∀ voice text, List.IsInfix (str "language=" ++ quoteChar ++ str "None" ++ quoteChar)
        (_construct_ssml voice (initSettings { language := some l }) text)) := by
  have hset : (initSettings { language := some l }).language = none := by
    simp [initSettings, h]
  refine ⟨hset, by simp [hset], by simp [initSettings], ?_, ?_⟩
  · intro voice text
    rw [_create_streaming_requests, hset]
    rfl
  · intro voice text
    refine ⟨str "<speak>" ++ str "<voice " ++ (str "name=" ++ quoteChar ++ voice ++ quoteChar)
      ++ str " ",
      str ">" ++ text ++ str "</voice></speak>", ?_⟩
    rw [_construct_ssml, hset]
    simp [initSettings, pyTruthy, pyStrOf, intercalate_pair]

/-- Witness for C10 at Croatian, a pipecat language absent from the
table. -/
theorem c10_language_missing_witness :
    language_to_google_tts_language PipecatLanguage.HR = none
    ∧ (initSettings { language := some PipecatLanguage.HR }).language = none :=
  ⟨by decide, (c10_language_missing PipecatLanguage.HR (by decide)).1⟩
